import Mathlib

/-!
Verification of the transaction-base and journal-entry headers of dragonfly
(`src/server/tx_base.h` and `src/server/journal/types.h`).

The headers declare several functions whose bodies live outside the two files
(`RecordJournal`, `RecordJournalFinish`, `TriggerJournalWriteToSink`,
`LockTag::Fingerprint`, `ShardArgs::Size`); those are modelled from the
specification and are marked as such in their doc comments.  Everything else
is translated directly from the header code.  C++ `unsigned`/`uint32_t`
arithmetic is modelled on `Nat` with explicit reduction modulo `2 ^ 32`.
-/

namespace Dfly

/-- Width of the C++ `unsigned` / `uint32_t` type used by `KeyIndex`. -/
def U32 : Nat := 2 ^ 32

/-- Width of the C++ `uint64_t` type used for lock fingerprints (`LockFp`). -/
def U64 : Nat := 2 ^ 64

/-- Structure `KeyIndex` from `src/server/tx_base.h`: describes key indices of a command.
`end` is exclusive; `step` is 1 for commands like MGET and 2 for commands like
MSET; `bonus`, when present, adds one extra key index outside `[start, end)`.
The C++ fields are 32-bit `unsigned` values; they are modelled as `Nat` values
intended to be below `U32`, and the wraparound of the C++ arithmetic is made
explicit in the member functions.  The C++ keyword `end` is not a legal Lean
field name, hence `end_`. -/
structure KeyIndex where
  start : Nat
  end_ : Nat
  step : Nat
  bonus : Option Nat := none
deriving DecidableEq

/-- Member `KeyIndex::HasSingleKey`: `return !bonus && (start + step >= end);` where
`start + step` is computed in 32-bit unsigned arithmetic. -/
def KeyIndex.HasSingleKey (k : KeyIndex) : Bool :=
  k.bonus.isNone && decide (k.end_ ≤ (k.start + k.step) % U32)

/-- Member `KeyIndex::num_args`: `return end - start + bool(bonus);` in 32-bit
unsigned arithmetic: the subtraction wraps modulo `2 ^ 32` (written as
`(U32 + end - start) % U32`, which agrees with C++ unsigned subtraction for
field values below `U32`), and the final sum wraps as well. -/
def KeyIndex.num_args (k : KeyIndex) : Nat :=
  ((U32 + k.end_ - k.start) % U32 + (if k.bonus.isSome then 1 else 0)) % U32

/-- Structure `KeyLockArgs` from `src/server/tx_base.h`: a database index together with
a span of lock fingerprints.  The C++ type is a plain aggregate over
`absl::Span<const LockFp>`; the span is modelled as a list of fingerprint
values.  Nothing in the type constrains the order or multiplicity of the
fingerprints. -/
structure KeyLockArgs where
  db_index : Nat := 0
  fps : List Nat

/-- Class `LockTag` from `src/server/tx_base.h`: a strong type wrapping a
`std::string_view` over the locking-relevant part of a key.  Two tags are
equal iff their underlying bytes are equal. -/
structure LockTag where
  str : String
deriving DecidableEq

/-- Modelled from the spec: `LockTag::Fingerprint` is declared in
`src/server/tx_base.h` but its body is not under `src`.  The spec requires a
deterministic pure function from the byte content of the tag to a 64-bit
value; it is modelled as an FNV-1a style fold over the characters of the
underlying view, reduced modulo `U64`. -/
def LockTag.Fingerprint (t : LockTag) : Nat :=
  t.str.data.foldl (fun h c => ((h ^^^ c.toNat) * 1099511628211) % U64)
    14695981039346656037

/-- One index slice of a `ShardArgs` view: `using IndexSlice =
std::pair<uint32_t, uint32_t>;  // [begin, end)`. -/
abbrev IndexSlice := Nat × Nat

/-- Class `ShardArgs` from `src/server/tx_base.h`: a span over the full argument
list together with a span of index sub-ranges referencing those arguments. -/
structure ShardArgs where
  args : List String
  ranges : List IndexSlice

/-- The index sequence produced by `ShardArgs::Iterator` while it stays on the
single range `(f, s)`, having started that range with `delta_ = d`.  Mirrors
`operator*`/`operator++` of the iterator: dereferencing yields index `f + d`;
incrementing sets `delta_` to `d + 1` and moves to the next range exactly when
`f + (d + 1) >= s`, resetting `delta_` to `0` there. -/
def runRange (f s d : Nat) : List Nat :=
  (f + d) :: (if h : s ≤ f + (d + 1) then [] else runRange f s (d + 1))
termination_by s - (f + d)
decreasing_by
  omega

/-- The full index sequence produced by iterating a `ShardArgs` view from
`begin()` to `end()`: the iterator starts each range with `delta_ = 0` and
walks the ranges in order; an empty collection of ranges yields nothing
(`begin() == end()`). -/
def iterRun : List IndexSlice → List Nat
  | [] => []
  | (f, s) :: rest => runRange f s 0 ++ iterRun rest

/-- The argument sequence produced by one full iteration of a `ShardArgs`
view; each yielded index is resolved in the backing argument list (as
`facade::ArgS(arglist_, index())` does).  Out-of-range indices are given the
empty string; the claims only use in-bounds views. -/
def ShardArgs.iterate (sa : ShardArgs) : List String :=
  (iterRun sa.ranges).map (fun i => sa.args.getD i "")

/-- The arguments a `ShardArgs` view is meant to select, written from the
words of the spec: for each range `[f, s)` in order, the arguments at indices
`f, f+1, ..., s-1` of the backing list.  This is the reference against which
the iterator of the source is compared. -/
def ShardArgs.selected (sa : ShardArgs) : List String :=
  sa.ranges.flatMap (fun r => (List.range' r.1 (r.2 - r.1)).map
    (fun i => sa.args.getD i ""))

/-- Modelled from the spec: `ShardArgs::Size` is declared in
`src/server/tx_base.h` but its body is not under `src`.  The spec states that
`Size()` returns the sum of the range lengths. -/
def ShardArgs.Size (sa : ShardArgs) : Nat :=
  (sa.ranges.map (fun r => r.2 - r.1)).sum

/-- Enum `journal::Op` from `src/server/journal/types.h`. -/
inductive Op where
  | NOOP
  | SELECT
  | EXPIRED
  | COMMAND
  | MULTI_COMMAND
  | EXEC
  | PING
  | FIN
  | LSN
deriving DecidableEq

/-- The numeric values the source assigns to `journal::Op` (a `uint8_t`
enum). -/
def Op.code : Op → Nat
  | .NOOP => 0
  | .SELECT => 6
  | .EXPIRED => 9
  | .COMMAND => 10
  | .MULTI_COMMAND => 11
  | .EXEC => 12
  | .PING => 13
  | .FIN => 14
  | .LSN => 15

/-- Structure `journal::Entry::Payload` from `src/server/journal/types.h`: a command
name together with its arguments.  The source stores the arguments as a
variant of three span-like views; all three are argument sequences, modelled
uniformly as a list of strings. -/
structure Payload where
  cmd : String
  args : List String
deriving DecidableEq

/-- Structure `journal::EntryBase` from `src/server/journal/types.h`: the common fields
of every journal entry. -/
structure EntryBase where
  txid : Nat
  opcode : Op
  dbid : Nat
  shard_cnt : Nat
  slot : Option Nat
  lsn : Nat
deriving DecidableEq

/-- Structure `journal::Entry` from `src/server/journal/types.h`: an `EntryBase`
together with its payload. -/
structure Entry extends EntryBase where
  payload : Payload
deriving DecidableEq

/-- Member `journal::Entry::HasPayload`: `return !payload.cmd.empty();`. -/
def Entry.HasPayload (e : Entry) : Bool :=
  !e.payload.cmd.isEmpty

/-- The slice of the execution context `OpArgs` that journaling depends on.
The source `OpArgs` carries shard and transaction pointers plus a
`DbContext`; the recorder reads the transaction id, the database index and
the optional cluster slot from it, so the model keeps exactly those. -/
structure OpArgs where
  txid : Nat
  dbid : Nat
  slot : Option Nat := none

/-- Modelled from the spec: the journal instance behind `RecordJournal` and
its siblings is not under `src`.  The spec describes a single
sequence-number allocator per journal and an ordered sequence of appended
entries, of which a prefix has been flushed to the downstream sink.  The
model keeps the next LSN to allocate, the appended entries in order, and the
number of entries already handed to the sink. -/
structure JournalState where
  nextLsn : Nat
  entries : List Entry
  flushed : Nat

/-- The journal of a fresh instance: no entries, first LSN is 0. -/
def initialJournal : JournalState :=
  { nextLsn := 0, entries := [], flushed := 0 }

/-- Modelled from the spec: `RecordJournal(op_args, cmd, args, shard_cnt,
multi_commands)` appends one entry carrying the transaction id, database
index and slot of `op_args`, opcode `MULTI_COMMAND` when `multi_commands` is
set and `COMMAND` otherwise, and the LSN assigned by the single allocator of
the journal, which then advances by one. -/
def RecordJournal (st : JournalState) (op : OpArgs) (cmd : String)
    (args : List String) (shard_cnt : Nat) (multi_commands : Bool) :
    JournalState :=
  { st with
    entries := st.entries ++
      [{ txid := op.txid
         opcode := if multi_commands then Op.MULTI_COMMAND else Op.COMMAND
         dbid := op.dbid
         shard_cnt := shard_cnt
         slot := op.slot
         lsn := st.nextLsn
         payload := { cmd := cmd, args := args } }]
    nextLsn := st.nextLsn + 1 }

/-- Modelled from the spec: `RecordJournalFinish(op_args, shard_cnt)` closes
the fan-out of a multi-command transaction by appending the single `EXEC`
marker entry carrying `shard_cnt`; the marker has no payload and receives the
next LSN from the same allocator. -/
def RecordJournalFinish (st : JournalState) (op : OpArgs) (shard_cnt : Nat) :
    JournalState :=
  { st with
    entries := st.entries ++
      [{ txid := op.txid
         opcode := Op.EXEC
         dbid := op.dbid
         shard_cnt := shard_cnt
         slot := op.slot
         lsn := st.nextLsn
         payload := { cmd := "", args := [] } }]
    nextLsn := st.nextLsn + 1 }

/-- Modelled from the spec: `TriggerJournalWriteToSink()` forces a flush of
what the journal already holds, adds no journal record and allocates no LSN.
In the model, flushing marks every appended entry as handed to the sink. -/
def TriggerJournalWriteToSink (st : JournalState) : JournalState :=
  { st with flushed := st.entries.length }

/-- One `RecordJournal` call of a sequential run: the context and arguments
of the call. -/
structure RecordReq where
  op : OpArgs
  cmd : String
  args : List String
  shard_cnt : Nat
  multi : Bool

/-- A sequential run of `RecordJournal` calls on one journal instance. -/
def runRecords (st : JournalState) (reqs : List RecordReq) : JournalState :=
  reqs.foldl (fun s r => RecordJournal s r.op r.cmd r.args r.shard_cnt r.multi) st

/-- The predicate selecting `EXEC` marker entries. -/
def isExec (e : Entry) : Bool := e.opcode == Op.EXEC

/-- When the advance condition of `operator++` holds right after the current
element, the iterator yields only the current index from this range.  Note it
yields `f + d` even when the range `[f, s)` is already empty. -/
theorem runRange_of_le (f s d : Nat) (h : s ≤ f + (d + 1)) :
    runRange f s d = [f + d] := by
  rw [runRange.eq_def, dif_pos h]

/-- While the range still has elements ahead of the cursor, the iterator
yields exactly the indices from the cursor to the end of the range. -/
theorem runRange_eq_range' (f s : Nat) :
    ∀ n d, s - (f + d) = n → f + d < s →
      runRange f s d = List.range' (f + d) (s - (f + d)) := by
  intro n
  induction n with
  | zero => intro d h1 h2; omega
  | succ m ih =>
    intro d h1 h2
    by_cases hc : s ≤ f + (d + 1)
    · have hs : s - (f + d) = 1 := by omega
      rw [runRange_of_le f s d hc, hs, List.range'_one]
    · rw [runRange.eq_def, dif_neg hc,
        ih (d + 1) (by omega) (by omega)]
      have hs : s - (f + d) = (s - (f + (d + 1))) + 1 := by omega
      rw [hs, List.range'_succ]
      rfl

/-- When every range of the view is non-empty, iteration walks exactly the
ranges, in order. -/
theorem iterRun_eq_flatMap (rs : List IndexSlice)
    (h : ∀ r ∈ rs, r.1 < r.2) :
    iterRun rs = rs.flatMap (fun r => List.range' r.1 (r.2 - r.1)) := by
  induction rs with
  | nil => rfl
  | cons r rest ih =>
    have h1 : r.1 < r.2 := h r (List.mem_cons_self r rest)
    have h2 : ∀ q ∈ rest, q.1 < q.2 := fun q hq => h q (List.mem_cons_of_mem r hq)
    rcases r with ⟨f, s⟩
    rw [iterRun, List.flatMap_cons, ih h2,
      runRange_eq_range' f s (s - (f + 0)) 0 rfl (by simpa using h1)]
    simp

/-- A sequential run appends one entry per call, and the single allocator of
the journal hands out consecutive LSNs starting at the current `nextLsn`. -/
theorem runRecords_lsns (reqs : List RecordReq) :
    ∀ st : JournalState,
      (runRecords st reqs).entries.map (fun e => e.lsn) =
        st.entries.map (fun e => e.lsn) ++ List.range' st.nextLsn reqs.length ∧
      (runRecords st reqs).nextLsn = st.nextLsn + reqs.length := by
  induction reqs with
  | nil => intro st; simp [runRecords]
  | cons r rest ih =>
    intro st
    rw [show runRecords st (r :: rest) =
          runRecords (RecordJournal st r.op r.cmd r.args r.shard_cnt r.multi) rest from rfl]
    obtain ⟨ihm, ihn⟩ := ih (RecordJournal st r.op r.cmd r.args r.shard_cnt r.multi)
    rw [ihm, ihn]
    constructor
    · simp [RecordJournal, List.range'_succ, List.append_assoc]
    · simp [RecordJournal]
      omega

/-- Function `RecordJournal` never emits an `EXEC` marker: a sequential run leaves the
sequence of `EXEC` entries unchanged. -/
theorem runRecords_filter_isExec (reqs : List RecordReq) :
    ∀ st : JournalState,
      (runRecords st reqs).entries.filter isExec = st.entries.filter isExec := by
  induction reqs with
  | nil => intro st; rfl
  | cons r rest ih =>
    intro st
    rw [show runRecords st (r :: rest) =
          runRecords (RecordJournal st r.op r.cmd r.args r.shard_cnt r.multi) rest from rfl,
      ih]
    cases hm : r.multi <;>
      simp [RecordJournal, isExec, List.filter_append, hm]

/-- Claim C1: for every sequential run of `RecordJournal` calls on one
journal instance (the per-call contexts may come from any shard; the single
allocator orders them), the LSNs assigned to the resulting journal entries
are strictly increasing with no gaps: starting from a fresh journal, one
entry is appended per call and the LSN sequence is exactly
`0, 1, ..., len - 1`. -/
theorem C1_record_journal_lsns_strictly_increasing (reqs : List RecordReq) :
    (runRecords initialJournal reqs).entries.map (fun e => e.lsn) =
      List.range reqs.length ∧
    (runRecords initialJournal reqs).entries.length = reqs.length := by
  obtain ⟨hm, _⟩ := runRecords_lsns reqs initialJournal
  have hm0 : (runRecords initialJournal reqs).entries.map (fun e => e.lsn) =
      List.range reqs.length := by
    rw [hm]
    simp [initialJournal, List.range_eq_range']
  refine ⟨hm0, ?_⟩
  have hl := congrArg List.length hm0
  simpa using hl

/-- Claim C2: for a multi-command transaction recorded as a sequence of
`MULTI_COMMAND` entries on a fresh journal, no `EXEC` marker is visible to a
reader of the entry sequence before `RecordJournalFinish` is called; once
`RecordJournalFinish(op, shard_cnt)` is called after those entries, exactly
one `EXEC` entry is present and it carries that `shard_cnt`. -/
theorem C2_exec_marker_only_after_finish (reqs : List RecordReq) (op : OpArgs)
    (sc : Nat) (hmulti : ∀ r ∈ reqs, r.multi = true) :
    (runRecords initialJournal reqs).entries.filter isExec = [] ∧
    (RecordJournalFinish (runRecords initialJournal reqs) op sc).entries.filter
        isExec =
      [{ txid := op.txid, opcode := Op.EXEC, dbid := op.dbid, shard_cnt := sc,
         slot := op.slot, lsn := reqs.length,
         payload := { cmd := "", args := [] } }] := by
  have h0 : (runRecords initialJournal reqs).entries.filter isExec = [] :=
    runRecords_filter_isExec reqs initialJournal
  refine ⟨h0, ?_⟩
  have hn : (runRecords initialJournal reqs).nextLsn = reqs.length := by
    have h2 := (runRecords_lsns reqs initialJournal).2
    simpa [initialJournal] using h2
  simp [RecordJournalFinish, List.filter_append, h0, hn, isExec]

/-- The three `MULTI_COMMAND` records of the C2 witness scenario: one logical
command of transaction 7 fanned out across three shards. -/
def multiReqs : List RecordReq :=
  [ { op := { txid := 7, dbid := 0 }, cmd := "mset", args := ["k1", "v1"],
      shard_cnt := 3, multi := true },
    { op := { txid := 7, dbid := 0 }, cmd := "mset", args := ["k2", "v2"],
      shard_cnt := 3, multi := true },
    { op := { txid := 7, dbid := 0 }, cmd := "mset", args := ["k3", "v3"],
      shard_cnt := 3, multi := true } ]

/-- Witness for C2 at the scenario given in the spec: three `MULTI_COMMAND`
entries of one transaction across three shards, closed with `shard_cnt = 3`. -/
theorem C2_exec_marker_only_after_finish_witness :
    (runRecords initialJournal multiReqs).entries.filter isExec = [] ∧
    (RecordJournalFinish (runRecords initialJournal multiReqs)
        { txid := 7, dbid := 0 } 3).entries.filter isExec =
      [{ txid := 7, opcode := Op.EXEC, dbid := 0, shard_cnt := 3,
         slot := none, lsn := multiReqs.length,
         payload := { cmd := "", args := [] } }] :=
  C2_exec_marker_only_after_finish multiReqs { txid := 7, dbid := 0 } 3
    (by decide)

/-- Claim C3 fails on the code: `KeyLockArgs` is a plain aggregate and places
no constraint on its fingerprint span; this concrete value holds fingerprints
that are neither deduplicated nor sorted, yet is a perfectly formed lock
request. -/
theorem C3_counterexample :
    (KeyLockArgs.mk 0 [2, 2, 1]).fps = [2, 2, 1] ∧
    ¬ List.Sorted (fun a b => a < b) (KeyLockArgs.mk 0 [2, 2, 1]).fps ∧
    ¬ (KeyLockArgs.mk 0 [2, 2, 1]).fps.Nodup := by
  refine ⟨rfl, ?_, ?_⟩ <;> decide

/-- Claim C3 amended: `KeyLockArgs` bundles a database index with a span of
fingerprints, but the type enforces neither deduplication nor sorted order:
it stores whatever fingerprint list it is given, unchanged, so the canonical
sorted order is a convention upheld by the callers, not by the type. -/
theorem C3_lock_args_fps_unconstrained (d : Nat) (l : List Nat) :
    (KeyLockArgs.mk d l).fps = l := rfl

/-- Claim C4: `LockTag::Fingerprint` is a deterministic pure function of the
byte content of the tag: any two tags over equal bytes (in particular tags
carved from two keys sharing a common lock tag) fingerprint equally. -/
theorem C4_fingerprint_deterministic (t1 t2 : LockTag) (h : t1.str = t2.str) :
    t1.Fingerprint = t2.Fingerprint :=
  congrArg (fun s => (LockTag.mk s).Fingerprint) h

/-- Witness for C4: two tag values over the same bytes. -/
theorem C4_fingerprint_deterministic_witness :
    LockTag.Fingerprint { str := "users.1000" } =
      LockTag.Fingerprint { str := "users.1000" } :=
  C4_fingerprint_deterministic { str := "users.1000" } { str := "users.1000" }
    rfl

/-- Claim C5 fails on the code: the default-constructed spec
`{start := 0, end := 0, step := 0}` has `HasSingleKey() = true` but
`num_args() = 0`, not 1. -/
theorem C5_counterexample :
    KeyIndex.HasSingleKey { start := 0, end_ := 0, step := 0 } = true ∧
    KeyIndex.num_args { start := 0, end_ := 0, step := 0 } = 0 := by
  constructor <;> decide

/-- Claim C5 amended: under `HasSingleKey() = true` the bonus is necessarily
absent, so `num_args()` carries no bonus contribution; it equals exactly 1
for every unit-step spec that selects at least one key (and whose
`start + 1` does not overflow the 32-bit field), such as the spec
`{start := 1, end := 2, step := 1}` named by the spec text.  It is not 1 for
every single-key spec: see the counterexample. -/
theorem C5_single_key_num_args_one (k : KeyIndex)
    (h : k.HasSingleKey = true) (hstep : k.step = 1)
    (hsel : k.start < k.end_) (hov : k.start + 1 < U32) :
    k.num_args = 1 := by
  simp only [KeyIndex.HasSingleKey, Bool.and_eq_true, decide_eq_true_iff,
    Option.isNone_iff_eq_none] at h
  obtain ⟨hb, hle⟩ := h
  rw [hstep] at hle
  unfold KeyIndex.num_args
  rw [hb]
  simp only [Option.isSome_none, Bool.false_eq_true, if_false, U32] at *
  omega

/-- Witness for C5 as amended, at the spec example `{start=1,end=2,step=1}`. -/
theorem C5_single_key_num_args_one_witness :
    KeyIndex.num_args { start := 1, end_ := 2, step := 1 } = 1 :=
  C5_single_key_num_args_one { start := 1, end_ := 2, step := 1 }
    (by decide) rfl (by decide) (by decide)

/-- Claim C6 fails on the code at the 32-bit boundary: with `start = 0`,
`end = 2^32 - 1` and a bonus key present, `start <= end` holds, yet the
unsigned sum `end - start + bool(bonus)` wraps, so `num_args()` returns 0
rather than the claimed `(end - start) + 1`. -/
theorem C6_counterexample :
    (0 : Nat) ≤ U32 - 1 ∧
    KeyIndex.num_args
        { start := 0, end_ := U32 - 1, step := 1, bonus := some 0 } = 0 ∧
    (U32 - 1 - 0) + 1 ≠ 0 := by
  refine ⟨Nat.zero_le _, by decide, by decide⟩

/-- Claim C6 amended: for every spec with `start ≤ end` whose fields are
32-bit values, `num_args()` returns `(end - start)` plus 1 if the bonus is
present, provided that value itself fits in 32 bits; the single excluded
overflow point is the subject of the counterexample. -/
theorem C6_num_args_of_start_le_end (k : KeyIndex)
    (hle : k.start ≤ k.end_) (hend : k.end_ < U32)
    (hfit : k.end_ - k.start + (if k.bonus.isSome then 1 else 0) < U32) :
    k.num_args = k.end_ - k.start + (if k.bonus.isSome then 1 else 0) := by
  unfold KeyIndex.num_args U32 at *
  cases hb : k.bonus.isSome <;> simp [hb] at * <;> omega

/-- Witness for C6 as amended: `{start := 1, end := 3, bonus := some 0}`
yields `num_args() = 3`. -/
theorem C6_num_args_of_start_le_end_witness :
    KeyIndex.num_args { start := 1, end_ := 3, step := 1, bonus := some 0 } =
      3 - 1 + (if (some 0 : Option Nat).isSome then 1 else 0) :=
  C6_num_args_of_start_le_end
    { start := 1, end_ := 3, step := 1, bonus := some 0 }
    (by decide) (by decide) (by decide)

/-- Claim C7 fails on the code: an empty range makes the iterator yield a
spurious element.  With backing list `a b c d` and ranges `[0,1)` and
`[3,3)` (both within bounds), iteration yields the element at index 3 even
though the empty range selects nothing. -/
theorem C7_counterexample :
    (∀ r ∈ (ShardArgs.mk ["a", "b", "c", "d"] [(0, 1), (3, 3)]).ranges,
        r.2 ≤ (ShardArgs.mk ["a", "b", "c", "d"] [(0, 1), (3, 3)]).args.length) ∧
    ShardArgs.iterate (ShardArgs.mk ["a", "b", "c", "d"] [(0, 1), (3, 3)]) ≠
      ShardArgs.selected (ShardArgs.mk ["a", "b", "c", "d"] [(0, 1), (3, 3)]) := by
  constructor
  · decide
  · have h1 : runRange 0 1 0 = [0 + 0] := runRange_of_le 0 1 0 (by omega)
    have h2 : runRange 3 3 0 = [3 + 0] := runRange_of_le 3 3 0 (by omega)
    simp [ShardArgs.iterate, ShardArgs.selected, iterRun, h1, h2]

/-- Claim C7 amended: for every view whose index ranges are non-empty
(`first < second`) and lie within the bounds of the backing argument list,
iterating from `begin()` to `end()` yields exactly the arguments selected by
the ranges, concatenated in range order (range-major), and nothing else. -/
theorem C7_iterate_yields_selected (sa : ShardArgs)
    (hne : ∀ r ∈ sa.ranges, r.1 < r.2)
    (hbound : ∀ r ∈ sa.ranges, r.2 ≤ sa.args.length) :
    sa.iterate = sa.selected := by
  unfold ShardArgs.iterate ShardArgs.selected
  rw [iterRun_eq_flatMap sa.ranges hne, List.map_flatMap]

/-- Witness for C7 as amended, on a two-range view. -/
theorem C7_iterate_yields_selected_witness :
    ShardArgs.iterate (ShardArgs.mk ["a", "b", "c", "d"] [(0, 2), (3, 4)]) =
      ShardArgs.selected (ShardArgs.mk ["a", "b", "c", "d"] [(0, 2), (3, 4)]) :=
  C7_iterate_yields_selected
    (ShardArgs.mk ["a", "b", "c", "d"] [(0, 2), (3, 4)])
    (by decide) (by decide)

/-- Claim C8 fails on the code: for a view holding one empty range, `Size()`
(the sum of the range lengths) is 0 while one full iteration produces one
element, so the two counts disagree. -/
theorem C8_counterexample :
    ShardArgs.Size (ShardArgs.mk ["a", "b", "c", "d"] [(3, 3)]) = 0 ∧
    (ShardArgs.iterate (ShardArgs.mk ["a", "b", "c", "d"] [(3, 3)])).length
      = 1 := by
  constructor
  · decide
  · have h2 : runRange 3 3 0 = [3 + 0] := runRange_of_le 3 3 0 (by omega)
    simp [ShardArgs.iterate, iterRun, h2]

/-- Claim C8 amended: iteration of a view is a pure function of the view, so
iterating twice yields the same sequence; and for every view whose ranges
are all non-empty, `Size()` equals both the sum of the range lengths and the
number of elements produced by one full iteration. -/
theorem C8_size_matches_iteration (sa : ShardArgs)
    (hne : ∀ r ∈ sa.ranges, r.1 < r.2) :
    sa.iterate = sa.iterate ∧
    sa.Size = (sa.ranges.map (fun r => r.2 - r.1)).sum ∧
    sa.Size = sa.iterate.length := by
  refine ⟨rfl, rfl, ?_⟩
  unfold ShardArgs.iterate ShardArgs.Size
  rw [iterRun_eq_flatMap sa.ranges hne]
  simp [List.length_flatMap, Function.comp_def, List.length_range']

/-- Witness for C8 as amended, on a two-range view. -/
theorem C8_size_matches_iteration_witness :
    ShardArgs.iterate (ShardArgs.mk ["a", "b", "c"] [(0, 2), (2, 3)]) =
        ShardArgs.iterate (ShardArgs.mk ["a", "b", "c"] [(0, 2), (2, 3)]) ∧
      ShardArgs.Size (ShardArgs.mk ["a", "b", "c"] [(0, 2), (2, 3)]) =
        (([(0, 2), (2, 3)] : List IndexSlice).map (fun r => r.2 - r.1)).sum ∧
      ShardArgs.Size (ShardArgs.mk ["a", "b", "c"] [(0, 2), (2, 3)]) =
        (ShardArgs.iterate (ShardArgs.mk ["a", "b", "c"] [(0, 2), (2, 3)])).length :=
  C8_size_matches_iteration (ShardArgs.mk ["a", "b", "c"] [(0, 2), (2, 3)])
    (by decide)

/-- Claim C9: `TriggerJournalWriteToSink` forces a flush without journaling
any new content: it appends no record and allocates no LSN, leaving both the
entry sequence and the LSN allocator of the journal unchanged. -/
theorem C9_trigger_write_preserves_entries_and_lsn (st : JournalState) :
    (TriggerJournalWriteToSink st).entries = st.entries ∧
    (TriggerJournalWriteToSink st).nextLsn = st.nextLsn :=
  ⟨rfl, rfl⟩

/-- Claim C10 fails on the code when `end` is strictly below `start`: for
`{start := 1, end := 0, step := 0}` (no bonus, `end ≤ start`),
`HasSingleKey()` is indeed `true`, but the unsigned subtraction in
`num_args()` wraps to `2^32 - 1` instead of returning 0. -/
theorem C10_counterexample :
    KeyIndex.HasSingleKey { start := 1, end_ := 0, step := 0 } = true ∧
    KeyIndex.num_args { start := 1, end_ := 0, step := 0 } ≠ 0 := by
  constructor <;> decide

/-- Claim C10 amended: for every spec with no bonus, `end = start`, and
`start + step` below `2^32` (so that the unsigned comparison in
`HasSingleKey` does not wrap), `HasSingleKey()` returns true even though
`num_args()` returns 0; this covers the default-constructed
`KeyIndex{0, 0, 0}`. -/
theorem C10_zero_key_spec_single_key (k : KeyIndex) (hb : k.bonus = none)
    (heq : k.end_ = k.start) (hov : k.start + k.step < U32) :
    k.HasSingleKey = true ∧ k.num_args = 0 := by
  constructor
  · simp only [KeyIndex.HasSingleKey, hb, Option.isNone_none, Bool.true_and,
      decide_eq_true_iff, heq, U32] at *
    omega
  · unfold KeyIndex.num_args
    rw [hb, heq]
    simp only [Option.isSome_none, Bool.false_eq_true, if_false, U32] at *
    omega

/-- Witness for C10 as amended, at the default-constructed spec. -/
theorem C10_zero_key_spec_single_key_witness :
    KeyIndex.HasSingleKey { start := 0, end_ := 0, step := 0, bonus := none }
        = true ∧
      KeyIndex.num_args { start := 0, end_ := 0, step := 0, bonus := none }
        = 0 :=
  C10_zero_key_spec_single_key
    { start := 0, end_ := 0, step := 0, bonus := none } rfl rfl (by decide)

end Dfly
